import Mathlib

/-!
Verification of the USBTMC/USB488 protocol engine of python-usbtmc
(`usbtmc/usbtmc.py`), via a shallow embedding of the relevant routines.

Bytes are modelled as `Nat` (always values < 256 where the source produces
bytes); byte strings as `List Nat`; Python text as `String`/`List Char`.
The USB device is abstracted by the list of bulk-IN packets it returns,
consumed in order.
-/

/-! ## Constants (from the module header of usbtmc.py) -/

def USBTMC_MSGID_DEV_DEP_MSG_OUT : Nat := 1
def USBTMC_MSGID_DEV_DEP_MSG_IN : Nat := 2
def USBTMC_STATUS_SUCCESS : Nat := 0x01
def USBTMC_HEADER_SIZE : Nat := 12
def USB488_READ_STATUS_BYTE : Nat := 128

/-! ## Byte-level helpers for `struct.pack`/`struct.unpack` -/

/-- Python's `~b & 0xFF` on a nonnegative integer `b`: `(-b-1) mod 256 = 255 - b mod 256`. -/
def complByte (b : Nat) : Nat := 255 - b % 256

/-- `struct.pack "<L" n`: 4 little-endian bytes.  `struct.pack` raises for
`n ≥ 2^32`; the model masks instead, and every theorem using it keeps the
value below `2^32`. -/
def le32 (n : Nat) : List Nat :=
  [n % 256, n / 256 % 256, n / 65536 % 256, n / 16777216 % 256]

/-- `struct.unpack "<L"` at offset `off` of byte string `d`. -/
def le32dec (d : List Nat) (off : Nat) : Nat :=
  d.getD off 0 + 256 * d.getD (off + 1) 0 + 65536 * d.getD (off + 2) 0
    + 16777216 * d.getD (off + 3) 0

/-- `struct.pack "B"` of a Python bool. -/
def boolByte (b : Bool) : Nat := if b then 1 else 0

/-! ## Session state (the `Instrument` attributes the write path mutates) -/

structure Session where
  last_btag : Nat
deriving DecidableEq

/-- `Instrument.pack_bulk_out_header` (usbtmc.py lines 577-579):
allocates the next bulk-OUT bTag and packs `struct.pack('BBBx', msgid, btag, ~btag & 0xFF)`. -/
def pack_bulk_out_header (s : Session) (msgid : Nat) : Session × List Nat :=
  let btag := s.last_btag % 255 + 1
  ({ s with last_btag := btag }, [msgid % 256, btag % 256, complByte btag, 0])

/-- `Instrument.pack_dev_dep_msg_out_header` (lines 581-583):
header plus `struct.pack("<LBxxx", transfer_size, eom)`. -/
def pack_dev_dep_msg_out_header (s : Session) (transfer_size : Nat) (eom : Bool) :
    Session × List Nat :=
  let p := pack_bulk_out_header s USBTMC_MSGID_DEV_DEP_MSG_OUT
  (p.1, p.2 ++ le32 transfer_size ++ [boolByte eom, 0, 0, 0])

/-- Loop body of `Instrument.write_raw` (lines 623-641).  One iteration per
chunk; the fuel argument bounds the iteration count (the caller passes
`data.length`, enough whenever `max_transfer_size ≥ 1`; with
`max_transfer_size = 0` and nonempty data the Python loop never terminates).
Returns the final session state and the list of transmitted bulk-OUT
transfers. -/
def write_raw_go (m : Nat) : Nat → Session → List Nat → Session × List (List Nat)
  | 0, s, _ => (s, [])
  | fuel + 1, s, data =>
    if data.isEmpty then (s, [])
    else
      -- eom = True iff num <= self.max_transfer_size at this iteration
      let eom := data.length ≤ m
      let block := data.take m
      let size := block.length
      let p := pack_dev_dep_msg_out_header s size eom
      let req := p.2 ++ block ++ List.replicate ((4 - size % 4) % 4) 0
      let rec' := write_raw_go m fuel p.1 (data.drop m)
      (rec'.1, req :: rec'.2)

/-- `Instrument.write_raw` (lines 617-641), device side abstracted: the value
is the sequence of byte strings passed to `bulk_out_ep.write`. -/
def write_raw (m : Nat) (s : Session) (data : List Nat) : Session × List (List Nat) :=
  write_raw_go m data.length s data

/-- A sequence of `write_raw` calls on one session; collects every
transmitted transfer in order. -/
def write_seq (m : Nat) : Session → List (List Nat) → Session × List (List Nat)
  | s, [] => (s, [])
  | s, d :: ds =>
    let w := write_raw m s d
    let rest := write_seq m w.1 ds
    (rest.1, w.2 ++ rest.2)

/-! ## Bulk-IN header decoding -/

/-- Result record of `Instrument.unpack_dev_dep_resp_header` (the source
returns the same six components as a tuple). -/
structure DevDepResp where
  msgid : Nat
  btag : Nat
  btaginverse : Nat
  transfer_size : Nat
  transfer_attributes : Nat
  data : List Nat
deriving DecidableEq

/-- `Instrument.unpack_dev_dep_resp_header` (lines 611-615), including the
`unpack_bulk_in_header` bytes (lines 607-609):
`struct.unpack_from('BBBx', data)`, `struct.unpack_from('<LBxxx', data, 4)`,
`data[12 : transfer_size+12]`. (`unpack_from` raises on a buffer shorter
than 12 bytes; the model reads missing bytes as 0 and is only used on
responses of at least header size.) -/
def unpack_dev_dep_resp_header (d : List Nat) : DevDepResp :=
  { msgid := d.getD 0 0
    btag := d.getD 1 0
    btaginverse := d.getD 2 0
    transfer_size := le32dec d 4
    transfer_attributes := d.getD 8 0
    data := (d.drop USBTMC_HEADER_SIZE).take (le32dec d 4) }

/-! ## `read_stb` (USB488 READ_STATUS_BYTE, lines 788-825) -/

/-- The bTag allocation of `Instrument.read_stb` (lines 794-798):
`rstb_btag = (last_rstb_btag % 128) + 1; if rstb_btag < 2: rstb_btag = 2`. -/
def rstb_alloc (last_rstb_btag : Nat) : Nat :=
  let t := last_rstb_btag % 128 + 1
  if t < 2 then 2 else t

/-- The three ways the USB488 branch of `read_stb` can end. -/
inductive StbResult where
  /-- a status byte is returned to the caller -/
  | statusByte (v : Nat)
  /-- `UsbtmcException("Read status failed", 'read_stb')` -/
  | readStatusFailed
  /-- `UsbtmcException("Read status byte btag mismatch", 'read_stb')` -/
  | tagMismatch
deriving DecidableEq

/-- USB488 branch of `Instrument.read_stb` (lines 794-823).  `b` is the
3-byte control-transfer reply, `has_interrupt` tells whether
`interrupt_in_ep` is set, `intr` is the 2-byte interrupt-in read (unused when
there is no interrupt endpoint).  Returns the updated `last_rstb_btag`
together with the outcome. -/
def read_stb_usb488 (last_rstb_btag : Nat) (b : List Nat) (has_interrupt : Bool)
    (intr : List Nat) : Nat × StbResult :=
  let rstb_btag := rstb_alloc last_rstb_btag
  (rstb_btag,
    if b.getD 0 0 = USBTMC_STATUS_SUCCESS then
      if rstb_btag ≠ b.getD 1 0 then .tagMismatch
      else if !has_interrupt then .statusByte (b.getD 2 0)
      else if intr.getD 0 0 ≠ rstb_btag + 128 then .tagMismatch
      else .statusByte (intr.getD 1 0)
    else .readStatusFailed)

/-! ## `read_raw` (lines 649-739) -/

/-- Quirk configuration relevant to `read_raw` (set at `open`). -/
structure RRConfig where
  rigol_quirk : Bool
  rigol_quirk_ieee_block : Bool
  advantest_quirk : Bool
  max_transfer_size : Nat
deriving DecidableEq

/-- The loop-carried Python locals of `read_raw`.  `last_data` is the local
variable `data` (the body of the most recently unpacked header), which the
source keeps using across iterations in which no header is unpacked. -/
structure RRState where
  read_data : List Nat
  eom : Bool
  read_len : Nat
  num : Int
  transfer_size : Nat
  last_data : List Nat
deriving DecidableEq

/-- `int(chr(b))` on a single byte: a decimal digit or a `ValueError`. -/
def decByteVal (b : Nat) : Option Nat :=
  if 48 ≤ b ∧ b ≤ 57 then some (b - 48) else none

/-- `int(bs)` on a byte string of decimal digits (base 10, leading zeros
allowed, empty/non-digit input raises).  Python additionally tolerates
surrounding whitespace and a sign, which the IEEE-block headers this is
applied to do not contain. -/
def pyInt10bytes (bs : List Nat) : Option Nat :=
  if bs.isEmpty then none
  else bs.foldl (fun acc b => acc.bind fun a => (decByteVal b).map fun d => a * 10 + d)
    (some 0)

/-- Lines 699-702: `l = int(chr(data[1])); n = int(data[2:l+2]);
transfer_size = n + (l+2)`.  `data[1]` raises `IndexError` when the body is
shorter than 2 bytes. -/
def ieee_block_size (data : List Nat) : Option Nat :=
  if data.length < 2 then none
  else
    (decByteVal (data.getD 1 0)).bind fun l =>
      (pyInt10bytes ((data.drop 2).take l)).map fun n => n + (l + 2)

/-- One iteration of the `read_raw` loop after the bulk-IN read (lines
685-720): header unpacking, the Rigol/default branching, and the update of
`read_data`/`eom`/`transfer_size`.  `none` models a raised exception
(`ValueError`/`IndexError` from the IEEE-block parse). -/
def read_raw_process (cfg : RRConfig) (st : RRState) (resp : List Nat) : Option RRState :=
  if cfg.rigol_quirk && !st.read_data.isEmpty then
    -- the packet has no header if it is not the first: read_data += resp
    let rd := st.read_data ++ resp
    some { st with
      read_data := if st.transfer_size ≤ rd.length then rd.take st.transfer_size else rd
      eom := st.transfer_size ≤ rd.length }
  else
    let h := unpack_dev_dep_resp_header resp
    if cfg.rigol_quirk then
      let ts? : Option Nat :=
        if cfg.rigol_quirk_ieee_block && h.data.headD 0 = 35 then ieee_block_size h.data
        else some h.transfer_size
      match ts? with
      | none => none
      | some ts =>
        let rd := st.read_data ++ h.data
        some { st with
          read_data := if ts ≤ rd.length then rd.take ts else rd
          eom := ts ≤ rd.length
          transfer_size := ts
          last_data := h.data }
    else
      some { st with
        read_data := st.read_data ++ h.data
        eom := decide (h.transfer_size ≤ h.data.length) && (h.transfer_attributes &&& 1 != 0)
        transfer_size := h.transfer_size
        last_data := h.data }

/-- The `while not eom` loop of `read_raw` (lines 669-731).  The device is
abstracted by `resps`, the successive `bulk_in_ep.read` results; the
REQUEST_DEV_DEP_MSG_IN headers sent to the device (lines 670-676) only
influence the device side and the bulk bTag counter, not the returned data,
and are omitted.  `none` models an operation that does not complete normally
(a blocked read that would time out, or an exception).  Fuel is one more
than the packet count, enough since every iteration consumes a packet. -/
def read_raw_loop (cfg : RRConfig) : Nat → RRState → List (List Nat) → Option RRState
  | 0, _, _ => none
  | fuel + 1, st, resps =>
    if st.eom then some st
    else
      match resps with
      | [] => none
      | resp :: rest =>
        match read_raw_process cfg st resp with
        | none => none
        | some st1 =>
          -- Advantest devices may only send one read packet: break
          if cfg.advantest_quirk then some st1
          else if 0 < st1.num then
            let num2 := st1.num - st1.last_data.length
            if num2 ≤ 0 then some st1
            else
              let rl := if num2 < (st1.read_len : Int) then num2.toNat else st1.read_len
              read_raw_loop cfg fuel { st1 with num := num2, read_len := rl } rest
          else read_raw_loop cfg fuel st1 rest

/-- `Instrument.read_raw` (lines 649-739); the returned bytes are
`read_data` of the final state. -/
def read_raw (cfg : RRConfig) (num : Int) (resps : List (List Nat)) : Option RRState :=
  let read_len := if 0 < num ∧ num < (cfg.max_transfer_size : Int) then num.toNat
    else cfg.max_transfer_size
  read_raw_loop cfg (resps.length + 1)
    { read_data := [], eom := false, read_len := read_len, num := num
      transfer_size := 0, last_data := [] } resps

-- default path: one packet with EOM attribute and full body ends the read

-- Rigol IEEE block (scenario: declared TransferSize 16, body `#18ABCDEFGH`)

/-! ## The `except usb.core.USBError` handlers of `write_raw`/`read_raw`
(lines 642-647 and 732-737) -/

/-- A Python exception as far as these handlers can observe it: the `errno`
attribute (`None` possible on `usb.core.USBError`) plus an identity tag so
that re-raising the original exception is distinguishable from raising a new
one. -/
structure PyExc where
  errno : Option Int
  eid : Nat
deriving DecidableEq

/-- Lines 642-647: `except usb.core.USBError: if exc.errno == 110:
self._abort_bulk_out(); raise`.  `abort_bulk_out` is the outcome of the
`_abort_bulk_out()` call, whose own control transfers and reads can raise
(nothing in `_abort_bulk_out`, lines 875-915, catches them).  Result: whether
the abort was invoked, and which exception propagates out of `write_raw`. -/
def write_raw_usb_error (exc : PyExc) (abort_bulk_out : Except PyExc Unit) : Bool × PyExc :=
  if exc.errno = some 110 then
    (true,
      match abort_bulk_out with
      | .error e2 => e2
      | .ok _ => exc)
  else (false, exc)

/-- Lines 732-737, identical to `write_raw_usb_error` with
`_abort_bulk_in` (lines 917-966, likewise catching nothing). -/
def read_raw_usb_error (exc : PyExc) (abort_bulk_in : Except PyExc Unit) : Bool × PyExc :=
  if exc.errno = some 110 then
    (true,
      match abort_bulk_in with
      | .error e2 => e2
      | .ok _ => exc)
  else (false, exc)

/-! ## VISA resource strings (lines 76-94, 151-186, 321-332) -/

/-- Python's `\s` on `str` patterns: the exact set of code points
`re.match(r'\s', chr(c))` accepts — the ASCII whitespace and separator
controls 0x09-0x0D and 0x1C-0x20 plus the Unicode whitespace characters
0x85, 0xA0, 0x1680, 0x2000-0x200A, 0x2028-0x2029, 0x202F, 0x205F and
0x3000. -/
def isPySpace (c : Char) : Bool :=
  let n := c.toNat
  (9 ≤ n && n ≤ 13) || (28 ≤ n && n ≤ 32) || n = 0x85 || n = 0xA0
    || n = 0x1680 || (0x2000 ≤ n && n ≤ 0x200A) || n = 0x2028 || n = 0x2029
    || n = 0x202F || n = 0x205F || n = 0x3000

/-- The character class `[^\s:]`. -/
def notSpaceColon (c : Char) : Bool := !isPySpace c && c != ':'

/-- Case-insensitive character comparison (the regex is compiled with `re.I`). -/
def ciChar (a b : Char) : Bool := a.toLower = b.toLower

/-- Backtracking candidates of `CLASS+` applied to `s`: every split of `s`
into a nonempty prefix of class characters and the remaining suffix, longest
prefix first (Python's greedy order). -/
def runSplits (p : Char → Bool) (s : List Char) : List (List Char × List Char) :=
  let run := s.takeWhile p
  let rest := s.dropWhile p
  (List.range run.length).map fun j =>
    let i := run.length - j
    (run.take i, run.drop i ++ rest)

/-- Backtracking candidates of `.+\]` applied to `s` (the inside of
`\[.+\]` after its opening bracket): splits `s = mid ++ ']' :: rest` with
`mid` nonempty and free of newlines (`.` does not match `\n`), longest `mid`
first. -/
def bracketSplits (s : List Char) : List (List Char × List Char) :=
  (List.range s.length).filterMap fun j =>
    let i := s.length - 1 - j
    if 1 ≤ i ∧ s.getD i ' ' = ']' ∧ (s.take i).all (· ≠ '\n') then
      some (s.take i, s.drop (i + 1))
    else none

/-- The bracket alternative of `(\[.+\])?` on a given run split: candidates
extending the captured run with a bracketed group, empty when the remaining
input does not start with `[`. -/
def bracketAlt (pr : List Char × List Char) : List (List Char × List Char) :=
  match pr.2 with
  | '[' :: r2 =>
    (bracketSplits r2).map fun br => (pr.1 ++ '[' :: br.1 ++ [']'], br.2)
  | _ => []

/-- Backtracking candidates of the arg2 group `[^\s:]+(\[.+\])?`: for each
run split (longest first), the bracket alternative (greedy, so tried first)
followed by the no-bracket alternative.  Each candidate is the captured arg2
text and the remaining input. -/
def arg2Splits (s : List Char) : List (List Char × List Char) :=
  ((runSplits notSpaceColon s).map fun pr => bracketAlt pr ++ [pr]).flatten

/-- The anchored tail `(::INSTR)$`, returning the suffix capture. -/
def matchINSTRTail : List Char → Option String
  | [a, b, i, n, s, t, r] =>
    if a = ':' && b = ':' && ciChar i 'I' && ciChar n 'N' && ciChar s 'S'
        && ciChar t 'T' && ciChar r 'R' then
      some (String.mk [i, n, s, t, r])
    else none
  | _ => none

/-- The group `(::(?P<arg3>[^\s:]+))` followed by `(::INSTR)$`. -/
def matchArg3Tail (s : List Char) : Option (String × String) :=
  match s with
  | ':' :: ':' :: rest =>
    (runSplits notSpaceColon rest).findSome? fun pr =>
      (matchINSTRTail pr.2).map fun sfx => (String.mk pr.1, sfx)
  | _ => none

/-- `(::(?P<arg3>[^\s:]+))?(::INSTR)$`: the optional group is greedy, so the
arg3-present alternative is tried first. -/
def matchTail (s : List Char) : Option (Option String × String) :=
  match matchArg3Tail s with
  | some (a3, sfx) => some (some a3, sfx)
  | none => (matchINSTRTail s).map fun sfx => (none, sfx)

/-- `(::(?P<arg2>[^\s:]+(\[.+\])?))` followed by the tail. -/
def matchFromArg2 (s : List Char) : Option (String × Option String × String) :=
  match s with
  | ':' :: ':' :: rest =>
    (arg2Splits rest).findSome? fun pr =>
      (matchTail pr.2).map fun t => (String.mk pr.1, t)
  | _ => none

/-- `(::(?P<arg1>[^\s:]+))` followed by the rest of the pattern. -/
def matchFromArg1 (s : List Char) : Option (String × String × Option String × String) :=
  match s with
  | ':' :: ':' :: rest =>
    (runSplits notSpaceColon rest).findSome? fun pr =>
      (matchFromArg2 pr.2).map fun t => (String.mk pr.1, t)
  | _ => none

/-- The record `parse_visa_resource_string` builds from the match groups. -/
structure VisaResource where
  rtype : String
  pfx : String
  arg1 : String
  arg2 : String
  arg3 : Option String
  sfx : String
deriving DecidableEq

/-- `parse_visa_resource_string` (lines 76-94): matches
`^(?P<prefix>(?P<type>USB)\d*)(::(?P<arg1>[^\s:]+))(::(?P<arg2>[^\s:]+(\[.+\])?))`
`(::(?P<arg3>[^\s:]+))?(::(?P<suffix>INSTR))$` under `re.I` and returns the
groups (`type` upper-cased, as in the source), or `None`.  The `\d*` of the
prefix is deterministic here: the following pattern element is `:`, which is
not a digit, so only the maximal digit run can extend to a full match. -/
def parse_visa_resource_string (resource_string : String) : Option VisaResource :=
  match resource_string.toList with
  | u :: s :: b :: rest =>
    if ciChar u 'U' && ciChar s 'S' && ciChar b 'B' then
      let ds := rest.takeWhile Char.isDigit
      let rest2 := rest.dropWhile Char.isDigit
      (matchFromArg1 rest2).map fun t =>
        { rtype := String.mk ([u, s, b].map Char.toUpper)
          pfx := String.mk (u :: s :: b :: ds)
          arg1 := t.1
          arg2 := t.2.1
          arg3 := t.2.2.1
          sfx := t.2.2.2 }
    else none
  | _ => none

/-! ## `int(arg, 0)` and the resource-string round trip -/

/-- Decimal digit value. -/
def decVal (c : Char) : Option Nat :=
  if c.isDigit then some (c.toNat - 48) else none

/-- Hexadecimal digit value. -/
def hexVal (c : Char) : Option Nat :=
  if c.isDigit then some (c.toNat - 48)
  else if 'a' ≤ c ∧ c ≤ 'f' then some (c.toNat - 87)
  else if 'A' ≤ c ∧ c ≤ 'F' then some (c.toNat - 55)
  else none

/-- Octal digit value. -/
def octVal (c : Char) : Option Nat :=
  if '0' ≤ c ∧ c ≤ '7' then some (c.toNat - 48) else none

/-- Binary digit value. -/
def binVal (c : Char) : Option Nat :=
  if c = '0' ∨ c = '1' then some (c.toNat - 48) else none

/-- Fold a nonempty digit string in the given base; `none` on the first
invalid digit or on the empty string. -/
def foldBase (base : Nat) (val : Char → Option Nat) (cs : List Char) : Option Nat :=
  if cs.isEmpty then none
  else cs.foldl (fun acc c => acc.bind fun a => (val c).map fun d => a * base + d) (some 0)

/-- Plain decimal accumulation (used once the digits are known valid). -/
def decFoldNat (cs : List Char) : Nat :=
  cs.foldl (fun a c => a * 10 + (c.toNat - 48)) 0

/-- The unsigned part of Python's `int(s, 0)` (C-style radix autodetection):
`0x`/`0o`/`0b` prefixes, a zero string, or a decimal literal without leading
zeros.  Underscore digit separators and surrounding whitespace, which Python
also accepts, do not occur in the strings the driver handles and are not
modelled. -/
def pyInt0 : List Char → Option Nat
  | [] => none
  | c :: rest =>
    if c = '0' then
      match rest with
      | [] => some 0
      | d :: ds =>
        if d = 'x' || d = 'X' then foldBase 16 hexVal ds
        else if d = 'o' || d = 'O' then foldBase 8 octVal ds
        else if d = 'b' || d = 'B' then foldBase 2 binVal ds
        else if (d :: ds).all (fun x => x = '0') then some 0
        else none
    else if c.isDigit && rest.all Char.isDigit then some (decFoldNat (c :: rest))
    else none

/-- `int(s, 0)` with an optional sign. -/
def pyIntArg (s : String) : Option Int :=
  match s.toList with
  | [] => none
  | c :: rest =>
    if c = '-' then (pyInt0 rest).map fun n => -(n : Int)
    else if c = '+' then (pyInt0 rest).map fun n => (n : Int)
    else (pyInt0 (c :: rest)).map fun n => (n : Int)

/-- The resource branch of `Instrument.__init__` (lines 321-332):
`idVendor = int(res['arg1'], 0); idProduct = int(res['arg2'], 0);
iSerial = res['arg3']`.  `none` models the `UsbtmcException("Invalid
resource string")` for an unparsable string and the uncaught `ValueError`
for non-numeric arguments.  (The source's `arg1 is None and arg2 is None`
check can never fire: both groups are mandatory in the regex.) -/
def instrument_resource_ids (resource : String) : Option (Int × Int × Option String) :=
  match parse_visa_resource_string resource with
  | none => none
  | some r =>
    match pyIntArg r.arg1, pyIntArg r.arg2 with
    | some v, some p => some (v, p, r.arg3)
    | _, _ => none

/-- The decimal digit characters, as produced by `"%d"` formatting. -/
def decDigitChar (k : Nat) : Char :=
  match k with
  | 0 => '0' | 1 => '1' | 2 => '2' | 3 => '3' | 4 => '4'
  | 5 => '5' | 6 => '6' | 7 => '7' | 8 => '8' | _ => '9'

/-- Canonical decimal rendering, most significant digit first; the fuel
argument makes the recursion structural (`n + 1` is always enough since
`n / 10 < n` for `n ≥ 10`). -/
def decDigitsGo : Nat → Nat → List Char
  | 0, _ => []
  | fuel + 1, n =>
    if n < 10 then [decDigitChar n]
    else decDigitsGo fuel (n / 10) ++ [decDigitChar (n % 10)]

/-- Canonical decimal rendering of a nonnegative integer (`"%d" % n`). -/
def decDigits (n : Nat) : List Char := decDigitsGo (n + 1) n

/-- The characters of `"USB::%d::%d::%s::INSTR" % (idVendor, idProduct, iSerial)`,
the resource string built by `list_resources` (line 184) when a serial
number is available. -/
def list_resource_chars (vid pid : Nat) (serial : List Char) : List Char :=
  'U' :: 'S' :: 'B' :: ':' :: ':' ::
    (decDigits vid ++ ':' :: ':' ::
      (decDigits pid ++ ':' :: ':' ::
        (serial ++ [':', ':', 'I', 'N', 'S', 'T', 'R'])))

/-- `list_resources`' formatted resource string as a `String`. -/
def list_resource_format (vid pid : Nat) (serial : String) : String :=
  String.mk (list_resource_chars vid pid serial.toList)

/-! ## Write-path lemmas -/

/-- One step of the bTag rotation `(last % 255) + 1`. -/
def btagSucc (t : Nat) : Nat := t % 255 + 1

/-- The bTags allocated by `n` consecutive header packs starting from
`last_btag = t`. -/
def tagList : Nat → Nat → List Nat
  | _, 0 => []
  | t, n + 1 => btagSucc t :: tagList (btagSucc t) n

/-- The value of `last_btag` after `n` consecutive header packs starting
from `t`. -/
def tagEnd : Nat → Nat → Nat
  | t, 0 => t
  | t, n + 1 => tagEnd (btagSucc t) n

lemma pack_dev_dep_msg_out_header_fst (s : Session) (size : Nat) (eom : Bool) :
    (pack_dev_dep_msg_out_header s size eom).1 = ⟨btagSucc s.last_btag⟩ := rfl

lemma pack_dev_dep_msg_out_header_snd (s : Session) (size : Nat) (eom : Bool) :
    (pack_dev_dep_msg_out_header s size eom).2
      = 1 :: btagSucc s.last_btag :: complByte (btagSucc s.last_btag) :: 0 ::
        size % 256 :: size / 256 % 256 :: size / 65536 % 256 :: size / 16777216 % 256 ::
        boolByte eom :: 0 :: 0 :: [0] := by
  have hb : (s.last_btag % 255 + 1) % 256 = s.last_btag % 255 + 1 :=
    Nat.mod_eq_of_lt (by omega)
  simp [pack_dev_dep_msg_out_header, pack_bulk_out_header, le32,
    USBTMC_MSGID_DEV_DEP_MSG_OUT, btagSucc, hb]

/-- Decoding any 12-byte header followed by a tail. -/
lemma unpack_cons12 (c0 c1 c2 c3 c4 c5 c6 c7 c8 c9 c10 c11 : Nat) (tl : List Nat) :
    unpack_dev_dep_resp_header
      (c0 :: c1 :: c2 :: c3 :: c4 :: c5 :: c6 :: c7 :: c8 :: c9 :: c10 :: c11 :: tl)
      = ⟨c0, c1, c2, c4 + 256 * c5 + 65536 * c6 + 16777216 * c7, c8,
          tl.take (c4 + 256 * c5 + 65536 * c6 + 16777216 * c7)⟩ := rfl

/-- Decoding a transmitted DEV_DEP_MSG_OUT transfer recovers the header
fields and the unpadded chunk. -/
lemma unpack_write_req (s : Session) (eom : Bool) (block pad : List Nat)
    (hlt : block.length < 4294967296) :
    unpack_dev_dep_resp_header
        ((pack_dev_dep_msg_out_header s block.length eom).2 ++ block ++ pad)
      = ⟨1, btagSucc s.last_btag, complByte (btagSucc s.last_btag),
          block.length, boolByte eom, block⟩ := by
  rw [pack_dev_dep_msg_out_header_snd]
  simp only [List.cons_append, List.nil_append]
  rw [unpack_cons12]
  have hS : block.length % 256 + 256 * (block.length / 256 % 256)
      + 65536 * (block.length / 65536 % 256)
      + 16777216 * (block.length / 16777216 % 256) = block.length := by omega
  rw [hS, List.take_left]

/-- Unfolding of one `write_raw` loop iteration on a nonempty payload. -/
lemma write_raw_go_succ (m fuel : Nat) (s : Session) (P : List Nat)
    (hP : P.isEmpty = false) :
    write_raw_go m (fuel + 1) s P =
      ((write_raw_go m fuel (pack_dev_dep_msg_out_header s (P.take m).length
          (decide (P.length ≤ m))).1 (P.drop m)).1,
        ((pack_dev_dep_msg_out_header s (P.take m).length (decide (P.length ≤ m))).2
            ++ P.take m ++ List.replicate ((4 - (P.take m).length % 4) % 4) 0)
          :: (write_raw_go m fuel (pack_dev_dep_msg_out_header s (P.take m).length
              (decide (P.length ≤ m))).1 (P.drop m)).2) := by
  rw [write_raw_go]
  simp [hP]

/-- Invariants of the `write_raw` loop: the decoded bodies concatenate to
the payload, every header's TransferSize is the true chunk length (at most
`m`), the EOM byte is 1 exactly on the last transfer, the transfer list is
empty only for an empty payload, and the bTags are the rotation sequence
from the incoming `last_btag`. -/
lemma write_raw_go_spec (m : Nat) (hm : 1 ≤ m) (hm32 : m < 4294967296) :
    ∀ (fuel : Nat) (s : Session) (P : List Nat), P.length ≤ fuel →
      (((write_raw_go m fuel s P).2.map
          fun r => (unpack_dev_dep_resp_header r).data).flatten = P)
    ∧ (∀ r ∈ (write_raw_go m fuel s P).2,
          (unpack_dev_dep_resp_header r).transfer_size
              = (unpack_dev_dep_resp_header r).data.length
        ∧ (unpack_dev_dep_resp_header r).data.length ≤ m
        ∧ (unpack_dev_dep_resp_header r).msgid = USBTMC_MSGID_DEV_DEP_MSG_OUT
        ∧ (unpack_dev_dep_resp_header r).btag = complByte (unpack_dev_dep_resp_header r).btaginverse
        ∧ (unpack_dev_dep_resp_header r).btaginverse
            = complByte (unpack_dev_dep_resp_header r).btag
        ∧ 1 ≤ (unpack_dev_dep_resp_header r).btag
        ∧ (unpack_dev_dep_resp_header r).btag ≤ 255)
    ∧ (∀ i, i < (write_raw_go m fuel s P).2.length →
          (unpack_dev_dep_resp_header ((write_raw_go m fuel s P).2.getD i [])).transfer_attributes
            = if i + 1 = (write_raw_go m fuel s P).2.length then 1 else 0)
    ∧ ((write_raw_go m fuel s P).2 = [] ↔ P = [])
    ∧ ((write_raw_go m fuel s P).2.map fun r => (unpack_dev_dep_resp_header r).btag)
        = tagList s.last_btag (write_raw_go m fuel s P).2.length
    ∧ (write_raw_go m fuel s P).1.last_btag
        = tagEnd s.last_btag (write_raw_go m fuel s P).2.length := by
  intro fuel
  induction fuel with
  | zero =>
    intro s P hle
    have hP : P = [] := List.eq_nil_of_length_eq_zero (Nat.le_zero.mp hle)
    subst hP
    simp [write_raw_go, tagList, tagEnd]
  | succ fuel ih =>
    intro s P hle
    by_cases hP : P.isEmpty
    · have hP' : P = [] := List.isEmpty_iff.mp hP
      subst hP'
      simp [write_raw_go, tagList, tagEnd]
    · have hPne : P ≠ [] := fun h => hP (by simp [h])
      have hP0 : 0 < P.length := List.length_pos.mpr hPne
      have hPf : P.isEmpty = false := Bool.eq_false_iff.mpr (fun h => hP h)
      rw [write_raw_go_succ m fuel s P hPf]
      have hdrop : (P.drop m).length ≤ fuel := by
        rw [List.length_drop]; omega
      have hblock : (P.take m).length < 4294967296 := by
        rw [List.length_take]; omega
      have hblockm : (P.take m).length ≤ m := by
        rw [List.length_take]; omega
      obtain ⟨ihA, ihB, ihC, ihD, ihE, ihF⟩ :=
        ih (pack_dev_dep_msg_out_header s (P.take m).length (decide (P.length ≤ m))).1
          (P.drop m) hdrop
      have hreq := unpack_write_req s (decide (P.length ≤ m)) (P.take m)
        (List.replicate ((4 - (P.take m).length % 4) % 4) 0) hblock
      have hbr : 1 ≤ btagSucc s.last_btag ∧ btagSucc s.last_btag ≤ 255 := by
        unfold btagSucc; omega
      have hcc : btagSucc s.last_btag = complByte (complByte (btagSucc s.last_btag)) := by
        unfold complByte btagSucc; omega
      refine ⟨?_, ?_, ?_, ?_, ?_, ?_⟩
      · -- bodies concatenate to P
        simp only [List.map_cons, List.flatten_cons, hreq, ihA]
        exact List.take_append_drop m P
      · -- per-transfer facts
        intro r hr
        rcases List.mem_cons.mp hr with hr | hr
        · subst hr
          rw [hreq]
          exact ⟨rfl, hblockm, rfl, hcc, rfl, hbr.1, hbr.2⟩
        · exact ihB r hr
      · -- EOM byte on exactly the last transfer
        intro i hi
        match i with
        | 0 =>
          simp only [List.getD_cons_zero, hreq, List.length_cons]
          by_cases heom : P.length ≤ m
          · have hnil : P.drop m = [] := List.drop_eq_nil_iff.mpr heom
            have hz : (write_raw_go m fuel (pack_dev_dep_msg_out_header s (P.take m).length
                (decide (P.length ≤ m))).1 (P.drop m)).2 = [] := ihD.mpr hnil
            rw [hz]
            simp [boolByte, heom]
          · have hnil : P.drop m ≠ [] := by
              rw [Ne, List.drop_eq_nil_iff]; omega
            have hrest : (write_raw_go m fuel (pack_dev_dep_msg_out_header s (P.take m).length
                (decide (P.length ≤ m))).1 (P.drop m)).2 ≠ [] :=
              fun h => hnil (ihD.mp h)
            have hlen : 0 < (write_raw_go m fuel (pack_dev_dep_msg_out_header s
                (P.take m).length (decide (P.length ≤ m))).1 (P.drop m)).2.length :=
              List.length_pos.mpr hrest
            rw [if_neg (by omega)]
            simp [boolByte, heom]
        | i + 1 =>
          simp only [List.getD_cons_succ, List.length_cons]
          have := ihC i (by simpa using Nat.lt_of_succ_lt_succ (by simpa using hi))
          rw [this]
          by_cases hv : i + 1 = (write_raw_go m fuel (pack_dev_dep_msg_out_header s
              (P.take m).length (decide (P.length ≤ m))).1 (P.drop m)).2.length
          · simp [hv]
          · simp [hv, fun h => hv (Nat.succ_injective h)]
      · -- nonempty output for nonempty payload
        constructor
        · intro h; exact absurd h (List.cons_ne_nil _ _)
        · intro h; exact absurd h hPne
      · -- the bTag sequence
        simp only [List.map_cons, hreq, List.length_cons]
        rw [tagList]
        refine congrArg (btagSucc s.last_btag :: ·) ?_
        rw [ihE, pack_dev_dep_msg_out_header_fst]
      · -- the final last_btag
        simp only [List.length_cons]
        rw [tagEnd, ihF, pack_dev_dep_msg_out_header_fst]

/-!
# Claims

The remainder of the file settles the claims C1-C10 against the
definitions above.
-/

/-- Claim C4: `write_raw` splits the payload into chunks of at most
`max_transfer_size` bytes whose concatenation is the payload; every header's
TransferSize is the true (unpadded) chunk length; and the EOM byte is 1 on
exactly the final transfer.  (`m < 2^32` keeps every chunk inside the u32
TransferSize field, which `struct.pack("<L", ...)` enforces in the
source.) -/
theorem c4_write_raw_chunking (m : Nat) (s : Session) (P : List Nat)
    (hm : 1 ≤ m) (hm32 : m < 4294967296) :
    (((write_raw m s P).2.map fun r => (unpack_dev_dep_resp_header r).data).flatten = P)
  ∧ (∀ r ∈ (write_raw m s P).2,
        (unpack_dev_dep_resp_header r).transfer_size
            = (unpack_dev_dep_resp_header r).data.length
      ∧ (unpack_dev_dep_resp_header r).data.length ≤ m)
  ∧ (∀ i, i < (write_raw m s P).2.length →
        (unpack_dev_dep_resp_header ((write_raw m s P).2.getD i [])).transfer_attributes
          = if i + 1 = (write_raw m s P).2.length then 1 else 0) := by
  obtain ⟨hA, hB, hC, _, _, _⟩ := write_raw_go_spec m hm hm32 P.length s P (le_refl _)
  exact ⟨hA, fun r hr => ⟨(hB r hr).1, (hB r hr).2.1⟩, hC⟩

/-- Claim C4 witness: a 5-byte payload with `max_transfer_size = 4` is split
into a 4-byte chunk (EOM 0) and a 1-byte chunk (EOM 1). -/
theorem c4_write_raw_chunking_witness :
    (1 ≤ 4 ∧ 4 < 4294967296)
  ∧ (((write_raw 4 ⟨0⟩ [10, 11, 12, 13, 14]).2.map
        fun r => (unpack_dev_dep_resp_header r).data).flatten = [10, 11, 12, 13, 14]) :=
  ⟨⟨by decide, by decide⟩,
    (c4_write_raw_chunking 4 ⟨0⟩ [10, 11, 12, 13, 14] (by decide) (by decide)).1⟩

/-- `tagList` splits over sums of counts. -/
lemma tagList_add (a : Nat) : ∀ (t b : Nat), tagList t (a + b) = tagList t a ++ tagList (tagEnd t a) b := by
  induction a with
  | zero => intro t b; simp [tagList, tagEnd]
  | succ a ih =>
    intro t b
    have : a + 1 + b = (a + b) + 1 := by omega
    rw [this, tagList, tagList, ih (btagSucc t) b, tagEnd]
    simp

/-- `tagEnd` splits over sums of counts. -/
lemma tagEnd_add (a : Nat) : ∀ (t b : Nat), tagEnd t (a + b) = tagEnd (tagEnd t a) b := by
  induction a with
  | zero => intro t b; simp [tagEnd]
  | succ a ih =>
    intro t b
    have : a + 1 + b = (a + b) + 1 := by omega
    rw [this, tagEnd, tagEnd, ih (btagSucc t) b]

/-- The bTag and `last_btag` bookkeeping of a whole sequence of `write_raw`
calls. -/
lemma write_seq_tags (m : Nat) (hm : 1 ≤ m) (hm32 : m < 4294967296) :
    ∀ (Ps : List (List Nat)) (s : Session),
      ((write_seq m s Ps).2.map fun r => (unpack_dev_dep_resp_header r).btag)
          = tagList s.last_btag (write_seq m s Ps).2.length
    ∧ (write_seq m s Ps).1.last_btag = tagEnd s.last_btag (write_seq m s Ps).2.length
    ∧ (∀ r ∈ (write_seq m s Ps).2,
          (unpack_dev_dep_resp_header r).btaginverse
              = complByte (unpack_dev_dep_resp_header r).btag
        ∧ 1 ≤ (unpack_dev_dep_resp_header r).btag
        ∧ (unpack_dev_dep_resp_header r).btag ≤ 255) := by
  intro Ps
  induction Ps with
  | nil => intro s; simp [write_seq, tagList, tagEnd]
  | cons d ds ih =>
    intro s
    obtain ⟨_, hB0, _, _, hE0, hF0⟩ := write_raw_go_spec m hm hm32 d.length s d (le_refl _)
    have hE : ((write_raw m s d).2.map fun r => (unpack_dev_dep_resp_header r).btag)
        = tagList s.last_btag (write_raw m s d).2.length := hE0
    have hF : (write_raw m s d).1.last_btag
        = tagEnd s.last_btag (write_raw m s d).2.length := hF0
    have hB : ∀ r ∈ (write_raw m s d).2,
        (unpack_dev_dep_resp_header r).transfer_size
            = (unpack_dev_dep_resp_header r).data.length
      ∧ (unpack_dev_dep_resp_header r).data.length ≤ m
      ∧ (unpack_dev_dep_resp_header r).msgid = USBTMC_MSGID_DEV_DEP_MSG_OUT
      ∧ (unpack_dev_dep_resp_header r).btag = complByte (unpack_dev_dep_resp_header r).btaginverse
      ∧ (unpack_dev_dep_resp_header r).btaginverse
          = complByte (unpack_dev_dep_resp_header r).btag
      ∧ 1 ≤ (unpack_dev_dep_resp_header r).btag
      ∧ (unpack_dev_dep_resp_header r).btag ≤ 255 := hB0
    obtain ⟨ihE, ihF, ihB⟩ := ih (write_raw m s d).1
    refine ⟨?_, ?_, ?_⟩
    · show ((write_raw m s d).2 ++ (write_seq m (write_raw m s d).1 ds).2).map _
        = tagList s.last_btag ((write_raw m s d).2 ++ (write_seq m (write_raw m s d).1 ds).2).length
      rw [List.map_append, List.length_append, tagList_add, hE, ihE, hF]
    · show (write_seq m (write_raw m s d).1 ds).1.last_btag
        = tagEnd s.last_btag ((write_raw m s d).2 ++ (write_seq m (write_raw m s d).1 ds).2).length
      rw [List.length_append, tagEnd_add, ihF, hF]
    · intro r hr
      rcases List.mem_append.mp hr with hr | hr
      · exact ⟨(hB r hr).2.2.2.2.1, (hB r hr).2.2.2.2.2.1, (hB r hr).2.2.2.2.2.2⟩
      · exact ihB r hr

/-- The rotation sequence from a fresh session in closed form. -/
lemma iterate_btagSucc_zero : ∀ (k : Nat), btagSucc^[k + 1] 0 = k % 255 + 1 := by
  intro k
  induction k with
  | zero => rfl
  | succ k ih =>
    rw [Function.iterate_succ_apply', ih]
    unfold btagSucc
    omega

/-- `tagList` as a map over iterates of `btagSucc`. -/
lemma tagList_eq_iterate : ∀ (n t : Nat), tagList t n = (List.range n).map fun i => btagSucc^[i + 1] t := by
  intro n
  induction n with
  | zero => intro t; simp [tagList]
  | succ n ih =>
    intro t
    rw [tagList, List.range_succ_eq_map, List.map_cons, List.map_map, ih (btagSucc t)]
    refine congrArg (btagSucc t :: ·) ?_
    refine List.map_congr_left fun i _ => ?_
    simp [Function.comp, Function.iterate_succ_apply]

/-- Claim C2: over any sequence of `write_raw` calls on a fresh session,
every transmitted bulk-OUT header has byte 1 (bTag) in 1..255 and byte 2
equal to `~bTag & 0xFF`, and the successive bTags are exactly
1, 2, ..., 255, 1, 2, ... — cycling in order and never 0. -/
theorem c2_btag_discipline (m : Nat) (Ps : List (List Nat))
    (hm : 1 ≤ m) (hm32 : m < 4294967296) :
    (∀ r ∈ (write_seq m ⟨0⟩ Ps).2,
        1 ≤ (unpack_dev_dep_resp_header r).btag
      ∧ (unpack_dev_dep_resp_header r).btag ≤ 255
      ∧ (unpack_dev_dep_resp_header r).btag ≠ 0
      ∧ (unpack_dev_dep_resp_header r).btaginverse
          = complByte (unpack_dev_dep_resp_header r).btag)
  ∧ ((write_seq m ⟨0⟩ Ps).2.map fun r => (unpack_dev_dep_resp_header r).btag)
      = (List.range (write_seq m ⟨0⟩ Ps).2.length).map fun i => i % 255 + 1 := by
  obtain ⟨hE, _, hB⟩ := write_seq_tags m hm hm32 Ps ⟨0⟩
  constructor
  · intro r hr
    obtain ⟨h1, h2, h3⟩ := hB r hr
    exact ⟨h2, h3, by omega, h1⟩
  · rw [hE, tagList_eq_iterate]
    exact List.map_congr_left fun i _ => iterate_btagSucc_zero i

/-- Claim C2 witness: two consecutive writes (two chunks then one) from a
fresh session carry bTags 1, 2, 3. -/
theorem c2_btag_discipline_witness :
    (1 ≤ 4 ∧ 4 < 4294967296)
  ∧ ((write_seq 4 ⟨0⟩ [[10, 11, 12, 13, 14], [15]]).2.map
        fun r => (unpack_dev_dep_resp_header r).btag)
      = (List.range (write_seq 4 ⟨0⟩ [[10, 11, 12, 13, 14], [15]]).2.length).map
          fun i => i % 255 + 1 :=
  ⟨⟨by decide, by decide⟩,
    (c2_btag_discipline 4 [[10, 11, 12, 13, 14], [15]] (by decide) (by decide)).2⟩

/-- The loop exits immediately, returning the current state, once `eom` is
set. -/
lemma read_raw_loop_exit (cfg : RRConfig) (fuel : Nat) (st : RRState)
    (resps : List (List Nat)) (h : st.eom = true) :
    read_raw_loop cfg (fuel + 1) st resps = some st := by
  rw [read_raw_loop.eq_def]
  simp [h]

/-- Prefix truncation of an append when the bound lies inside the first
part. -/
lemma take_append_of_le (T : Nat) (a b : List Nat) (h : T ≤ a.length) :
    (a ++ b).take T = a.take T := by
  have h0 : T - a.length = 0 := by omega
  rw [List.take_append_eq_append_take, h0, List.take_zero, List.append_nil]

/-- Continuation of a Rigol read: with a nonempty accumulator that has not
yet reached the target `transfer_size`, the loop appends each further packet
raw and stops, truncating to the target, as soon as the accumulator reaches
it. -/
lemma read_raw_loop_rigol_fill (cfg : RRConfig) (hrig : cfg.rigol_quirk = true)
    (hadv : cfg.advantest_quirk = false) :
    ∀ (rest : List (List Nat)) (fuel : Nat) (acc : List Nat) (T rl : Nat) (nm : Int)
      (ld : List Nat),
      acc ≠ [] → nm ≤ 0 → rest.length < fuel → ¬(T ≤ acc.length) →
      T ≤ acc.length + rest.flatten.length →
      read_raw_loop cfg fuel ⟨acc, false, rl, nm, T, ld⟩ rest
        = some ⟨(acc ++ rest.flatten).take T, true, rl, nm, T, ld⟩ := by
  intro rest
  induction rest with
  | nil =>
    intro fuel acc T rl nm ld hacc hnm hfuel hT hfill
    exact absurd hfill (by simpa using hT)
  | cons r rest' ih =>
    intro fuel acc T rl nm ld hacc hnm hfuel hT hfill
    obtain ⟨f, rfl⟩ : ∃ f, fuel = f + 1 := ⟨fuel - 1, by omega⟩
    have hae : acc.isEmpty = false := by
      rw [Bool.eq_false_iff]
      exact fun h => hacc (List.isEmpty_iff.mp h)
    have hproc : read_raw_process cfg ⟨acc, false, rl, nm, T, ld⟩ r
        = some ⟨if T ≤ (acc ++ r).length then (acc ++ r).take T else acc ++ r,
            decide (T ≤ (acc ++ r).length), rl, nm, T, ld⟩ := by
      simp [read_raw_process, hrig, hae]
    have hnum : ¬(0 < nm) := by omega
    have hf1 : 0 < f := by
      have := hfuel; simp at this; omega
    rw [read_raw_loop]
    simp only [hproc, hadv, hnum, Bool.false_eq_true, if_false, ite_false]
    by_cases hT2 : T ≤ (acc ++ r).length
    · obtain ⟨f', rfl⟩ : ∃ f', f = f' + 1 := ⟨f - 1, by omega⟩
      rw [if_pos hT2, decide_eq_true hT2]
      rw [read_raw_loop_exit cfg f' _ rest' rfl]
      have : (acc ++ (r :: rest').flatten).take T = (acc ++ r).take T := by
        rw [List.flatten_cons, ← List.append_assoc]
        exact take_append_of_le T (acc ++ r) rest'.flatten hT2
      rw [this]
    · rw [if_neg hT2]
      have hrec := ih f (acc ++ r) T rl nm ld (by simp [hacc]) hnm
        (by simp at hfuel ⊢; omega) hT2
        (by simp at hfill ⊢; omega)
      rw [decide_eq_false hT2, hrec, List.flatten_cons, ← List.append_assoc]

/-- Claim C5: on a Rigol IEEE-block session (`rigol_quirk_ieee_block` set),
when the first bulk-IN body starts with `'#'`, `read_raw` parses the
definite-length block header `#<L><digits>` (digit `L` at index 1, the next
`L` bytes giving `N` in decimal), overrides `transfer_size` to `N + (L+2)`,
keeps appending subsequent packets raw until the accumulator reaches that
size, then truncates to exactly `N + (L+2)` bytes and returns them with
`eom` set. -/
theorem c5_rigol_ieee_block (M : Nat) (r1 : List Nat) (rest : List (List Nat)) (L N : Nat)
    (hhash : (unpack_dev_dep_resp_header r1).data.headD 0 = 35)
    (hlen2 : 2 ≤ (unpack_dev_dep_resp_header r1).data.length)
    (hL : decByteVal ((unpack_dev_dep_resp_header r1).data.getD 1 0) = some L)
    (hN : pyInt10bytes (((unpack_dev_dep_resp_header r1).data.drop 2).take L) = some N)
    (hfill : N + (L + 2) ≤ (unpack_dev_dep_resp_header r1).data.length + rest.flatten.length) :
    (read_raw ⟨true, true, false, M⟩ (-1) (r1 :: rest)).map (fun st => (st.read_data, st.eom))
      = some (((unpack_dev_dep_resp_header r1).data ++ rest.flatten).take (N + (L + 2)),
          true) := by
  have hbne : (unpack_dev_dep_resp_header r1).data ≠ [] := by
    intro h
    rw [h] at hhash
    simp at hhash
  have hts : ieee_block_size (unpack_dev_dep_resp_header r1).data = some (N + (L + 2)) := by
    unfold ieee_block_size
    rw [if_neg (by omega), hL]
    simp [hN]
  have hproc : read_raw_process ⟨true, true, false, M⟩ ⟨[], false, M, -1, 0, []⟩ r1
      = some ⟨if N + (L + 2) ≤ (unpack_dev_dep_resp_header r1).data.length
            then (unpack_dev_dep_resp_header r1).data.take (N + (L + 2))
            else (unpack_dev_dep_resp_header r1).data,
          decide (N + (L + 2) ≤ (unpack_dev_dep_resp_header r1).data.length),
          M, -1, N + (L + 2), (unpack_dev_dep_resp_header r1).data⟩ := by
    have hhash2 : (unpack_dev_dep_resp_header r1).data.head?.getD 0 = 35 := by
      simpa using hhash
    simp [read_raw_process, hts, hhash2]
  have hnum : ¬((0 : Int) < -1) := by norm_num
  have hstart : read_raw ⟨true, true, false, M⟩ (-1) (r1 :: rest)
      = read_raw_loop ⟨true, true, false, M⟩ (rest.length + 1 + 1)
          ⟨[], false, M, -1, 0, []⟩ (r1 :: rest) := by
    simp [read_raw]
  rw [hstart, read_raw_loop]
  simp only [hproc, hnum, Bool.false_eq_true, if_false, ite_false]
  by_cases hT : N + (L + 2) ≤ (unpack_dev_dep_resp_header r1).data.length
  · rw [if_pos hT, decide_eq_true hT,
      read_raw_loop_exit ⟨true, true, false, M⟩ rest.length _ rest rfl]
    rw [take_append_of_le _ _ _ hT]
    rfl
  · rw [if_neg hT, decide_eq_false hT,
      read_raw_loop_rigol_fill ⟨true, true, false, M⟩ rfl rfl rest (rest.length + 1)
        (unpack_dev_dep_resp_header r1).data (N + (L + 2)) M (-1)
        (unpack_dev_dep_resp_header r1).data hbne (by norm_num) (by omega) hT hfill]
    rfl

/-- Claim C5 witness: the spec's scenario — a first packet whose header
declares TransferSize 16 while the body is the 11-byte IEEE block
`#18ABCDEFGH` — yields exactly `b"#18ABCDEFGH"` with EOM set
(`L = 1`, `N = 8`, target `8 + 3 = 11`). -/
theorem c5_rigol_ieee_block_witness :
    ((unpack_dev_dep_resp_header [2, 1, 254, 0, 16, 0, 0, 0, 0, 0, 0, 0,
        35, 49, 56, 65, 66, 67, 68, 69, 70, 71, 72]).data.headD 0 = 35
    ∧ pyInt10bytes (((unpack_dev_dep_resp_header [2, 1, 254, 0, 16, 0, 0, 0, 0, 0, 0, 0,
        35, 49, 56, 65, 66, 67, 68, 69, 70, 71, 72]).data.drop 2).take 1) = some 8)
  ∧ (read_raw ⟨true, true, false, 1024⟩ (-1)
        [[2, 1, 254, 0, 16, 0, 0, 0, 0, 0, 0, 0,
          35, 49, 56, 65, 66, 67, 68, 69, 70, 71, 72]]).map
      (fun st => (st.read_data, st.eom))
      = some ([35, 49, 56, 65, 66, 67, 68, 69, 70, 71, 72], true) :=
  ⟨⟨by decide, by decide⟩, by
    have := c5_rigol_ieee_block 1024
      [2, 1, 254, 0, 16, 0, 0, 0, 0, 0, 0, 0, 35, 49, 56, 65, 66, 67, 68, 69, 70, 71, 72]
      [] 1 8 (by decide) (by decide) (by decide) (by decide) (by decide)
    simpa using this⟩

/-- Claim C10: `write_raw` on an empty payload transmits nothing — the chunk
loop never executes, no bulk-OUT transfer (hence no EOM-bearing message) is
handed to the endpoint, and `last_btag` is left unchanged. -/
theorem c10_write_raw_empty (m : Nat) (s : Session) : write_raw m s [] = (s, []) := rfl

set_option maxRecDepth 4000 in
/-- Claim C1 (code bug): the READ_STATUS_BYTE bTag is NOT confined to
2..127.  Starting from a fresh session (`last_rstb_btag = 0`), the first 126
`read_stb` calls allocate 2, 3, ..., 127, and the 127th call computes
`(127 % 128) + 1 = 128`, stores it in `last_rstb_btag` and sends it as
`wValue` — outside the range 2..127 that USB488 (and the spec) require.  The
clamp `if rstb_btag < 2: rstb_btag = 2` shows the intended bound; the upper
bound is simply missed. -/
theorem c1_rstb_btag_exceeds_range :
    rstb_alloc^[126] 0 = 127
  ∧ rstb_alloc^[127] 0 = 128
  ∧ ¬(rstb_alloc^[127] 0 ≤ 127)
  ∧ (read_stb_usb488 127 [1, 128, 0] false []).1 = 128 := by decide

/-- Claim C3 counterexample: when the bulk transfer times out (errno 110)
and `_abort_bulk_out` itself raises, `write_raw` does NOT swallow the
abort's error and re-raise the original timeout — the abort's exception
propagates instead (`self._abort_bulk_out()` is not wrapped in any
`try`/`except`). -/
theorem c3_abort_error_replaces_timeout :
    write_raw_usb_error ⟨some 110, 0⟩ (Except.error ⟨some 110, 1⟩) = (true, ⟨some 110, 1⟩)
  ∧ (⟨some 110, 1⟩ : PyExc) ≠ ⟨some 110, 0⟩ := by decide

/-- Claim C3 (amended): on USB error 110 the engine invokes the matching
abort and re-raises the original timeout provided the abort returns
normally; an exception raised by the abort itself propagates in its place.
Every other USB error propagates unchanged with no abort attempted.  The
same holds for `read_raw` with `_abort_bulk_in`. -/
theorem c3_timeout_abort_then_reraise (e : PyExc) (ab : Except PyExc Unit) :
    (e.errno = some 110 →
        (write_raw_usb_error e ab).1 = true ∧ (read_raw_usb_error e ab).1 = true
      ∧ (ab = .ok () → (write_raw_usb_error e ab).2 = e ∧ (read_raw_usb_error e ab).2 = e)
      ∧ (∀ e2, ab = .error e2 →
          (write_raw_usb_error e ab).2 = e2 ∧ (read_raw_usb_error e ab).2 = e2))
  ∧ (e.errno ≠ some 110 →
        write_raw_usb_error e ab = (false, e) ∧ read_raw_usb_error e ab = (false, e)) := by
  constructor
  · intro h
    refine ⟨by simp [write_raw_usb_error, h], by simp [read_raw_usb_error, h], ?_, ?_⟩
    · rintro rfl
      simp [write_raw_usb_error, read_raw_usb_error, h]
    · rintro e2 rfl
      simp [write_raw_usb_error, read_raw_usb_error, h]
  · intro h
    simp [write_raw_usb_error, read_raw_usb_error, h]

/-- Claim C3 witness: a non-timeout USB error (errno 5) propagates with no
abort attempted. -/
theorem c3_timeout_abort_then_reraise_witness :
    (⟨some 5, 3⟩ : PyExc).errno ≠ some 110
  ∧ write_raw_usb_error ⟨some 5, 3⟩ (.ok ()) = (false, ⟨some 5, 3⟩) :=
  ⟨by decide, ((c3_timeout_abort_then_reraise ⟨some 5, 3⟩ (.ok ())).2 (by decide)).1⟩

/-- Claim C6 counterexample: in the (reachable) session state
`last_rstb_btag = 127` the allocated bTag is 128, and an interrupt packet
whose first byte equals `bTag | 0x80 = 128` is nevertheless rejected as a
tag mismatch, because the code compares against `rstb_btag + 128 = 256`
(never a byte value).  The claim, which reads the check as `bTag | 0x80`,
predicts that status byte 55 would be returned here. -/
theorem c6_or_mask_vs_plus128 :
    (read_stb_usb488 127 [1, 128, 0] true [128, 55]).2 = StbResult.tagMismatch
  ∧ (read_stb_usb488 127 [1, 128, 0] true [128, 55]).1 ||| 0x80 = 128
  ∧ StbResult.tagMismatch ≠ StbResult.statusByte 55 := by decide

/-- Unfolding of the outcome component of `read_stb_usb488`. -/
lemma read_stb_usb488_snd (last : Nat) (b intr : List Nat) (hi : Bool) :
    (read_stb_usb488 last b hi intr).2 =
      if b.getD 0 0 = USBTMC_STATUS_SUCCESS then
        if rstb_alloc last ≠ b.getD 1 0 then .tagMismatch
        else if !hi then .statusByte (b.getD 2 0)
        else if intr.getD 0 0 ≠ rstb_alloc last + 128 then .tagMismatch
        else .statusByte (intr.getD 1 0)
      else .readStatusFailed := rfl

/-- Claim C6 (amended): for a USB488 session, `read_stb` raises
`ReadStatusFailed` when `reply[0] ≠ SUCCESS`; raises `StatusByteTagMismatch`
when `reply[1]` differs from the sent bTag; otherwise without an
interrupt-in endpoint it returns `reply[2]`, and with one it reads 2 bytes
from the interrupt endpoint, raises `StatusByteTagMismatch` unless byte 0
equals `bTag + 128`, and returns byte 1.  (For the in-range tags 2..127,
`bTag + 128` coincides with `bTag | 0x80`.) -/
theorem c6_read_stb_outcomes (last : Nat) (b intr : List Nat) (hi : Bool) :
    (b.getD 0 0 ≠ USBTMC_STATUS_SUCCESS →
        (read_stb_usb488 last b hi intr).2 = .readStatusFailed)
  ∧ (b.getD 0 0 = USBTMC_STATUS_SUCCESS → b.getD 1 0 ≠ rstb_alloc last →
        (read_stb_usb488 last b hi intr).2 = .tagMismatch)
  ∧ (b.getD 0 0 = USBTMC_STATUS_SUCCESS → b.getD 1 0 = rstb_alloc last → hi = false →
        (read_stb_usb488 last b hi intr).2 = .statusByte (b.getD 2 0))
  ∧ (b.getD 0 0 = USBTMC_STATUS_SUCCESS → b.getD 1 0 = rstb_alloc last → hi = true →
        intr.getD 0 0 ≠ rstb_alloc last + 128 →
        (read_stb_usb488 last b hi intr).2 = .tagMismatch)
  ∧ (b.getD 0 0 = USBTMC_STATUS_SUCCESS → b.getD 1 0 = rstb_alloc last → hi = true →
        intr.getD 0 0 = rstb_alloc last + 128 →
        (read_stb_usb488 last b hi intr).2 = .statusByte (intr.getD 1 0)) := by
  refine ⟨fun h0 => ?_, fun h0 h1 => ?_, fun h0 h1 h2 => ?_,
    fun h0 h1 h2 h3 => ?_, fun h0 h1 h2 h3 => ?_⟩
  · rw [read_stb_usb488_snd, if_neg h0]
  · rw [read_stb_usb488_snd, if_pos h0, if_pos (Ne.symm h1)]
  · rw [read_stb_usb488_snd, if_pos h0, if_neg (not_not_intro h1.symm), h2,
      if_pos (by decide)]
  · rw [read_stb_usb488_snd, if_pos h0, if_neg (not_not_intro h1.symm), h2,
      if_neg (by decide), if_pos h3]
  · rw [read_stb_usb488_snd, if_pos h0, if_neg (not_not_intro h1.symm), h2,
      if_neg (by decide), if_neg (not_not_intro h3)]

/-- Claim C6 witness: success reply with matching tag and no interrupt
endpoint returns `reply[2]`. -/
theorem c6_read_stb_outcomes_witness :
    ([1, 2, 66] : List Nat).getD 0 0 = USBTMC_STATUS_SUCCESS
  ∧ ([1, 2, 66] : List Nat).getD 1 0 = rstb_alloc 0
  ∧ (read_stb_usb488 0 [1, 2, 66] false []).2 = .statusByte 66 :=
  ⟨by decide, by decide,
    (c6_read_stb_outcomes 0 [1, 2, 66] [] false).2.2.1 (by decide) (by decide) rfl⟩

/-- Claim C7 counterexample: a bulk-IN response whose complement byte
disagrees with its bTag (byte 2 is 99, not `~7 & 0xFF = 248`) is accepted
by `read_raw` without any protocol error: the read completes normally and
returns the body. -/
theorem c7_mismatched_btag_accepted :
    (unpack_dev_dep_resp_header [2, 7, 99, 0, 2, 0, 0, 0, 1, 0, 0, 0, 65, 66]).btaginverse
      ≠ complByte (unpack_dev_dep_resp_header [2, 7, 99, 0, 2, 0, 0, 0, 1, 0, 0, 0, 65, 66]).btag
  ∧ (read_raw ⟨false, false, false, 1024⟩ (-1) [[2, 7, 99, 0, 2, 0, 0, 0, 1, 0, 0, 0, 65, 66]]).map
      (fun st => (st.read_data, st.eom)) = some ([65, 66], true) := by decide

/-- Claim C7 (amended): `read_raw` never validates the response header's
bTag or complement byte: whenever a header is unpacked (always, except for
Rigol continuation packets), the outcome of processing a response depends
only on bytes 4..8 (TransferSize, TransferAttributes) and the bytes past the
12-byte header — bytes 1 and 2 are ignored, and no protocol error is ever
raised for a mismatch. -/
theorem c7_header_tag_ignored (cfg : RRConfig) (st : RRState) (r r' : List Nat)
    (hq : cfg.rigol_quirk = false ∨ st.read_data = [])
    (h4 : r.getD 4 0 = r'.getD 4 0) (h5 : r.getD 5 0 = r'.getD 5 0)
    (h6 : r.getD 6 0 = r'.getD 6 0) (h7 : r.getD 7 0 = r'.getD 7 0)
    (h8 : r.getD 8 0 = r'.getD 8 0) (hd : r.drop 12 = r'.drop 12) :
    read_raw_process cfg st r = read_raw_process cfg st r' := by
  have e1 : (unpack_dev_dep_resp_header r).transfer_size
      = (unpack_dev_dep_resp_header r').transfer_size := by
    simp only [unpack_dev_dep_resp_header, le32dec, h4, h5, h6, h7]
  have e2 : (unpack_dev_dep_resp_header r).transfer_attributes
      = (unpack_dev_dep_resp_header r').transfer_attributes := by
    simp only [unpack_dev_dep_resp_header, h8]
  have e3 : (unpack_dev_dep_resp_header r).data = (unpack_dev_dep_resp_header r').data := by
    simp only [unpack_dev_dep_resp_header, USBTMC_HEADER_SIZE, le32dec, h4, h5, h6, h7, hd]
  rcases hq with hq | hq
  · simp only [read_raw_process, hq]
    simp [e1, e2, e3]
  · simp only [read_raw_process, hq]
    simp [e1, e2, e3]

/-- Claim C7 witness: changing the bTag and complement bytes of a response
does not change how `read_raw` processes it. -/
theorem c7_header_tag_ignored_witness :
    (RRConfig.rigol_quirk ⟨false, false, false, 1024⟩ = false
      ∨ RRState.read_data ⟨[], false, 1024, -1, 0, []⟩ = [])
  ∧ read_raw_process ⟨false, false, false, 1024⟩ ⟨[], false, 1024, -1, 0, []⟩
        [2, 7, 99, 0, 2, 0, 0, 0, 1, 0, 0, 0, 65, 66]
      = read_raw_process ⟨false, false, false, 1024⟩ ⟨[], false, 1024, -1, 0, []⟩
        [2, 8, 247, 0, 2, 0, 0, 0, 1, 0, 0, 0, 65, 66] :=
  ⟨Or.inl rfl,
    c7_header_tag_ignored ⟨false, false, false, 1024⟩ ⟨[], false, 1024, -1, 0, []⟩
      [2, 7, 99, 0, 2, 0, 0, 0, 1, 0, 0, 0, 65, 66]
      [2, 8, 247, 0, 2, 0, 0, 0, 1, 0, 0, 0, 65, 66]
      (Or.inl rfl) (by decide) (by decide) (by decide) (by decide) (by decide) (by decide)⟩

/-- Claim C8: in the default (non-Rigol) `read_raw` path, processing a
bulk-IN packet always succeeds, appends the body to the accumulator, and
sets `eom` to true exactly when the EOM bit (`TransferAttributes & 1`) is
set AND at least `TransferSize` body bytes were received; with a short body
the EOM bit is ignored (`eom` stays false, so the loop keeps reading). -/
theorem c8_default_eom_flag (cfg : RRConfig) (st st' : RRState) (resp : List Nat)
    (h1 : cfg.rigol_quirk = false)
    (h2 : read_raw_process cfg st resp = some st') :
    (st'.eom = true ↔
      ((unpack_dev_dep_resp_header resp).transfer_attributes &&& 1 ≠ 0
        ∧ (unpack_dev_dep_resp_header resp).transfer_size
            ≤ (unpack_dev_dep_resp_header resp).data.length))
  ∧ st'.read_data = st.read_data ++ (unpack_dev_dep_resp_header resp).data := by
  simp only [read_raw_process, h1, Bool.false_and, Bool.false_eq_true, if_false,
    Option.some.injEq] at h2
  subst h2
  constructor
  · simp [Bool.and_eq_true, decide_eq_true_iff, bne_iff_ne, and_comm]
  · rfl

/-- Claim C8 witness: a packet with the EOM attribute and a full-length body
ends the read; the body is appended. -/
theorem c8_default_eom_flag_witness :
    (RRConfig.rigol_quirk ⟨false, false, false, 1024⟩ = false)
  ∧ read_raw_process ⟨false, false, false, 1024⟩ ⟨[], false, 1024, -1, 0, []⟩
        [2, 1, 254, 0, 2, 0, 0, 0, 1, 0, 0, 0, 65, 66]
      = some ⟨[65, 66], true, 1024, -1, 2, [65, 66]⟩
  ∧ ((⟨[65, 66], true, 1024, -1, 2, [65, 66]⟩ : RRState).eom = true ↔
      ((unpack_dev_dep_resp_header [2, 1, 254, 0, 2, 0, 0, 0, 1, 0, 0, 0, 65, 66]).transfer_attributes &&& 1 ≠ 0
        ∧ (unpack_dev_dep_resp_header [2, 1, 254, 0, 2, 0, 0, 0, 1, 0, 0, 0, 65, 66]).transfer_size
            ≤ (unpack_dev_dep_resp_header [2, 1, 254, 0, 2, 0, 0, 0, 1, 0, 0, 0, 65, 66]).data.length)) :=
  ⟨rfl, by decide,
    (c8_default_eom_flag ⟨false, false, false, 1024⟩ ⟨[], false, 1024, -1, 0, []⟩
      ⟨[65, 66], true, 1024, -1, 2, [65, 66]⟩
      [2, 1, 254, 0, 2, 0, 0, 0, 1, 0, 0, 0, 65, 66] rfl (by decide)).1⟩

/-! ## Decimal-rendering lemmas for the VISA round trip -/

lemma decDigitChar_cases (k : Nat) :
    decDigitChar k = '0' ∨ decDigitChar k = '1' ∨ decDigitChar k = '2'
  ∨ decDigitChar k = '3' ∨ decDigitChar k = '4' ∨ decDigitChar k = '5'
  ∨ decDigitChar k = '6' ∨ decDigitChar k = '7' ∨ decDigitChar k = '8'
  ∨ decDigitChar k = '9' := by
  rcases k with _ | _ | _ | _ | _ | _ | _ | _ | _ | k
  · exact Or.inl rfl
  · exact Or.inr (Or.inl rfl)
  · exact Or.inr (Or.inr (Or.inl rfl))
  · exact Or.inr (Or.inr (Or.inr (Or.inl rfl)))
  · exact Or.inr (Or.inr (Or.inr (Or.inr (Or.inl rfl))))
  · exact Or.inr (Or.inr (Or.inr (Or.inr (Or.inr (Or.inl rfl)))))
  · exact Or.inr (Or.inr (Or.inr (Or.inr (Or.inr (Or.inr (Or.inl rfl))))))
  · exact Or.inr (Or.inr (Or.inr (Or.inr (Or.inr (Or.inr (Or.inr (Or.inl rfl)))))))
  · exact Or.inr (Or.inr (Or.inr (Or.inr (Or.inr (Or.inr (Or.inr (Or.inr (Or.inl rfl))))))))
  · exact Or.inr (Or.inr (Or.inr (Or.inr (Or.inr (Or.inr (Or.inr (Or.inr (Or.inr rfl))))))))

lemma decDigitChar_facts (k : Nat) :
    (decDigitChar k).isDigit = true
  ∧ notSpaceColon (decDigitChar k) = true
  ∧ decDigitChar k ≠ '-'
  ∧ decDigitChar k ≠ '+' := by
  have h := decDigitChar_cases k
  rcases h with h | h | h | h | h | h | h | h | h | h <;> rw [h] <;>
    refine ⟨?_, ?_, ?_, ?_⟩ <;> decide

lemma decDigitChar_toNat (k : Nat) (hk : k < 10) : (decDigitChar k).toNat - 48 = k := by
  interval_cases k <;> decide

lemma decDigitChar_ne_zero (k : Nat) (h1 : 1 ≤ k) (h2 : k < 10) : decDigitChar k ≠ '0' := by
  interval_cases k <;> decide

/-- `decDigitsGo` does not depend on the fuel, as long as there is enough. -/
lemma decDigitsGo_fuel (n : Nat) : ∀ (f f' : Nat), n < f → n < f' →
    decDigitsGo f n = decDigitsGo f' n := by
  induction n using Nat.strong_induction_on with
  | _ n ih =>
    intro f f' hf hf'
    rcases f with _ | g
    · omega
    rcases f' with _ | g'
    · omega
    rw [decDigitsGo, decDigitsGo]
    by_cases h : n < 10
    · simp [h]
    · simp only [h, if_false]
      rw [ih (n / 10) (by omega) g g' (by omega) (by omega)]

/-- The defining recursion of `decDigits`. -/
lemma decDigits_eq (n : Nat) :
    decDigits n = if n < 10 then [decDigitChar n]
      else decDigits (n / 10) ++ [decDigitChar (n % 10)] := by
  show decDigitsGo (n + 1) n = _
  rw [decDigitsGo]
  by_cases h : n < 10
  · simp [h]
  · simp only [h, if_false]
    rw [decDigitsGo_fuel (n / 10) n (n / 10 + 1) (by omega) (by omega)]
    rfl

lemma decDigits_ne_nil (n : Nat) : decDigits n ≠ [] := by
  rw [decDigits_eq]
  by_cases h : n < 10 <;> simp [h]

lemma decDigits_mem (n : Nat) : ∀ c ∈ decDigits n, ∃ k, k < 10 ∧ c = decDigitChar k := by
  induction n using Nat.strong_induction_on with
  | _ n ih =>
    intro c hc
    rw [decDigits_eq] at hc
    by_cases h : n < 10
    · rw [if_pos h] at hc
      simp at hc
      exact ⟨n, h, hc⟩
    · rw [if_neg h] at hc
      rcases List.mem_append.mp hc with hc | hc
      · exact ih (n / 10) (by omega) c hc
      · simp at hc
        exact ⟨n % 10, by omega, hc⟩

lemma decDigits_head (n : Nat) (hn : 1 ≤ n) :
    ∃ c cs, decDigits n = c :: cs ∧ c ≠ '0' := by
  induction n using Nat.strong_induction_on with
  | _ n ih =>
    rw [decDigits_eq]
    by_cases h : n < 10
    · exact ⟨decDigitChar n, [], by rw [if_pos h], decDigitChar_ne_zero n hn h⟩
    · have hrec := ih (n / 10) (by omega) (by omega)
      obtain ⟨d, ds, hcons, hd0⟩ := hrec
      refine ⟨d, ds ++ [decDigitChar (n % 10)], ?_, hd0⟩
      rw [if_neg h, hcons]
      rfl

lemma decDigits_foldl (n : Nat) : ∀ (a : Nat),
    (decDigits n).foldl (fun a c => a * 10 + (c.toNat - 48)) a
      = a * 10 ^ (decDigits n).length + n := by
  induction n using Nat.strong_induction_on with
  | _ n ih =>
    intro a
    rw [decDigits_eq]
    by_cases h : n < 10
    · rw [if_pos h]
      simp [decDigitChar_toNat n h]
    · rw [if_neg h]
      rw [List.foldl_append, ih (n / 10) (by omega) a]
      have hmod := decDigitChar_toNat (n % 10) (by omega)
      have hdm := Nat.div_add_mod n 10
      simp only [List.foldl_cons, List.foldl_nil, hmod, List.length_append,
        List.length_cons, List.length_nil]
      rw [pow_succ]
      ring_nf
      omega

lemma decFoldNat_decDigits (n : Nat) : decFoldNat (decDigits n) = n := by
  have := decDigits_foldl n 0
  simpa [decFoldNat] using this

lemma decDigits_all_digits (n : Nat) : (decDigits n).all Char.isDigit = true := by
  rw [List.all_eq_true]
  intro c hc
  obtain ⟨k, _, rfl⟩ := decDigits_mem n c hc
  exact (decDigitChar_facts k).1

/-- `int(s, 0)` undoes `"%d"` formatting. -/
lemma pyIntArg_decDigits (n : Nat) :
    pyIntArg (String.mk (decDigits n)) = some (n : Int) := by
  by_cases h0 : n = 0
  · subst h0
    decide
  · obtain ⟨c, cs, hcons, hc0⟩ := decDigits_head n (by omega)
    have hcmem : c ∈ decDigits n := by rw [hcons]; exact List.mem_cons_self c cs
    obtain ⟨k, hk, hck⟩ := decDigits_mem n c hcmem
    have hdigit : c.isDigit = true := hck ▸ (decDigitChar_facts k).1
    have hdash : c ≠ '-' := hck ▸ (decDigitChar_facts k).2.2.1
    have hplus : c ≠ '+' := hck ▸ (decDigitChar_facts k).2.2.2
    have hall : cs.all Char.isDigit = true := by
      rw [List.all_eq_true]
      intro d hd
      have : d ∈ decDigits n := by rw [hcons]; exact List.mem_cons_of_mem c hd
      obtain ⟨j, _, rfl⟩ := decDigits_mem n d this
      exact (decDigitChar_facts j).1
    have hval : pyInt0 (c :: cs) = some n := by
      simp only [pyInt0]
      rw [if_neg hc0, if_pos (by rw [hdigit, hall]; rfl), ← hcons, decFoldNat_decDigits]
    rw [show String.mk (decDigits n) = ⟨c :: cs⟩ from by rw [hcons]]
    simp only [pyIntArg, String.toList]
    rw [if_neg hdash, if_neg hplus, hval]
    rfl

/-! ## Regex-matching lemmas for the VISA round trip -/

lemma takeWhile_append_of (p : Char → Bool) :
    ∀ (l : List Char) (a : Char) (r : List Char),
      (∀ c ∈ l, p c = true) → p a = false →
      (l ++ a :: r).takeWhile p = l ∧ (l ++ a :: r).dropWhile p = a :: r := by
  intro l
  induction l with
  | nil =>
    intro a r _ ha
    simp [List.takeWhile_cons, List.dropWhile_cons, ha]
  | cons c l ih =>
    intro a r hall ha
    have hc : p c = true := hall c (List.mem_cons_self c l)
    obtain ⟨ht, hd⟩ := ih a r (fun d hd => hall d (List.mem_cons_of_mem c hd)) ha
    simp [List.takeWhile_cons, List.dropWhile_cons, hc, ht, hd]

/-- The first (greedy) candidate of `runSplits` on a full run followed by a
non-class character. -/
lemma runSplits_first (p : Char → Bool) (l : List Char) (a : Char) (r : List Char)
    (hall : ∀ c ∈ l, p c = true) (hl : l ≠ []) (ha : p a = false) :
    ∃ tl, runSplits p (l ++ a :: r) = (l, a :: r) :: tl := by
  obtain ⟨ht, hd⟩ := takeWhile_append_of p l a r hall ha
  obtain ⟨k, hk⟩ : ∃ k, l.length = k + 1 :=
    ⟨l.length - 1, by have := List.length_pos.mpr hl; omega⟩
  refine ⟨(List.range k).map fun j =>
    (l.take (l.length - (j + 1)), l.drop (l.length - (j + 1)) ++ a :: r), ?_⟩
  unfold runSplits
  simp only [ht, hd]
  rw [hk, List.range_succ_eq_map, List.map_cons, List.map_map]
  congr 1
  rw [Nat.sub_zero, ← hk, List.take_length, List.drop_length, List.nil_append]

lemma bracketAlt_colon (l : List Char) (r : List Char) :
    bracketAlt (l, ':' :: r) = [] := rfl

/-- The first (greedy) candidate of `arg2Splits` on a full run followed by a
colon. -/
lemma arg2Splits_first (l : List Char) (r : List Char)
    (hall : ∀ c ∈ l, notSpaceColon c = true) (hl : l ≠ []) :
    ∃ tl, arg2Splits (l ++ ':' :: r) = (l, ':' :: r) :: tl := by
  obtain ⟨tl0, h0⟩ := runSplits_first notSpaceColon l ':' r hall hl (by decide)
  refine ⟨(tl0.map fun pr => bracketAlt pr ++ [pr]).flatten, ?_⟩
  unfold arg2Splits
  rw [h0, List.map_cons, List.flatten_cons, bracketAlt_colon, List.nil_append,
    List.cons_append, List.nil_append]

lemma matchINSTRTail_instr : matchINSTRTail [':', ':', 'I', 'N', 'S', 'T', 'R'] = some "INSTR" := by
  decide

lemma matchArg3Tail_cons (rest : List Char) :
    matchArg3Tail (':' :: ':' :: rest)
      = (runSplits notSpaceColon rest).findSome? (fun pr =>
          (matchINSTRTail pr.2).map fun sfx => (String.mk pr.1, sfx)) := rfl

lemma matchFromArg2_cons (rest : List Char) :
    matchFromArg2 (':' :: ':' :: rest)
      = (arg2Splits rest).findSome? (fun pr =>
          (matchTail pr.2).map fun t => (String.mk pr.1, t)) := rfl

lemma matchFromArg1_cons (rest : List Char) :
    matchFromArg1 (':' :: ':' :: rest)
      = (runSplits notSpaceColon rest).findSome? (fun pr =>
          (matchFromArg2 pr.2).map fun t => (String.mk pr.1, t)) := rfl

lemma matchTail_serial (serial : List Char)
    (hser : ∀ c ∈ serial, notSpaceColon c = true) (hne : serial ≠ []) :
    matchTail (':' :: ':' :: (serial ++ [':', ':', 'I', 'N', 'S', 'T', 'R']))
      = some (some (String.mk serial), "INSTR") := by
  obtain ⟨tl, htl⟩ := runSplits_first notSpaceColon serial ':'
    [':', 'I', 'N', 'S', 'T', 'R'] hser hne (by decide)
  have h1 : matchArg3Tail (':' :: ':' :: (serial ++ [':', ':', 'I', 'N', 'S', 'T', 'R']))
      = some (String.mk serial, "INSTR") := by
    rw [matchArg3Tail_cons, htl]
    simp [List.findSome?_cons, matchINSTRTail_instr]
  unfold matchTail
  rw [h1]

lemma matchFromArg2_format (pid : Nat) (serial : List Char)
    (hser : ∀ c ∈ serial, notSpaceColon c = true) (hne : serial ≠ []) :
    matchFromArg2 (':' :: ':' :: (decDigits pid ++ ':' :: ':' ::
        (serial ++ [':', ':', 'I', 'N', 'S', 'T', 'R'])))
      = some (String.mk (decDigits pid), some (String.mk serial), "INSTR") := by
  have hall : ∀ c ∈ decDigits pid, notSpaceColon c = true := by
    intro c hc
    obtain ⟨k, _, rfl⟩ := decDigits_mem pid c hc
    exact (decDigitChar_facts k).2.1
  obtain ⟨tl, htl⟩ := arg2Splits_first (decDigits pid)
    (':' :: (serial ++ [':', ':', 'I', 'N', 'S', 'T', 'R'])) hall (decDigits_ne_nil pid)
  rw [matchFromArg2_cons, htl]
  simp [List.findSome?_cons, matchTail_serial serial hser hne]

lemma matchFromArg1_format (vid pid : Nat) (serial : List Char)
    (hser : ∀ c ∈ serial, notSpaceColon c = true) (hne : serial ≠ []) :
    matchFromArg1 (':' :: ':' :: (decDigits vid ++ ':' :: ':' ::
        (decDigits pid ++ ':' :: ':' :: (serial ++ [':', ':', 'I', 'N', 'S', 'T', 'R']))))
      = some (String.mk (decDigits vid), String.mk (decDigits pid),
          some (String.mk serial), "INSTR") := by
  have hall : ∀ c ∈ decDigits vid, notSpaceColon c = true := by
    intro c hc
    obtain ⟨k, _, rfl⟩ := decDigits_mem vid c hc
    exact (decDigitChar_facts k).2.1
  obtain ⟨tl, htl⟩ := runSplits_first notSpaceColon (decDigits vid) ':'
    (':' :: (decDigits pid ++ ':' :: ':' :: (serial ++ [':', ':', 'I', 'N', 'S', 'T', 'R'])))
    hall (decDigits_ne_nil vid) (by decide)
  rw [matchFromArg1_cons, htl]
  simp [List.findSome?_cons, matchFromArg2_format pid serial hser hne]

/-- Parsing the string formatted by `list_resources` recovers the groups. -/
lemma parse_format (vid pid : Nat) (serial : List Char)
    (hser : ∀ c ∈ serial, notSpaceColon c = true) (hne : serial ≠ []) :
    parse_visa_resource_string (list_resource_format vid pid (String.mk serial))
      = some ⟨"USB", "USB", String.mk (decDigits vid), String.mk (decDigits pid),
          some (String.mk serial), "INSTR"⟩ := by
  unfold parse_visa_resource_string list_resource_format list_resource_chars
  show (if ciChar 'U' 'U' && ciChar 'S' 'S' && ciChar 'B' 'B' then _ else none) = _
  rw [if_pos (by decide)]
  have htw : (':' :: ':' :: (decDigits vid ++ ':' :: ':' :: (decDigits pid ++ ':' :: ':' ::
      ((String.mk serial).toList ++ [':', ':', 'I', 'N', 'S', 'T', 'R'])))).takeWhile
        Char.isDigit = [] := by
    simp [List.takeWhile_cons]
  have hdw : (':' :: ':' :: (decDigits vid ++ ':' :: ':' :: (decDigits pid ++ ':' :: ':' ::
      ((String.mk serial).toList ++ [':', ':', 'I', 'N', 'S', 'T', 'R'])))).dropWhile
        Char.isDigit = ':' :: ':' :: (decDigits vid ++ ':' :: ':' :: (decDigits pid ++ ':' :: ':' ::
      ((String.mk serial).toList ++ [':', ':', 'I', 'N', 'S', 'T', 'R']))) := by
    simp [List.dropWhile_cons]
  rw [htw, hdw]
  show (matchFromArg1 _).map _ = _
  rw [show (String.mk serial).toList = serial from rfl,
    matchFromArg1_format vid pid serial hser hne]
  rfl

/-- Claim C9 counterexample: the round trip fails for the printable serial
`"A:B"` — the formatted resource string does not parse at all (the regex
classes `[^\s:]+` exclude colons), while the claim requires it to yield
`(1, 2, "A:B")`.  (Serials containing whitespace fail the same way.) -/
theorem c9_colon_serial_breaks_roundtrip :
    instrument_resource_ids (list_resource_format 1 2 "A:B") = none
  ∧ (none : Option (Int × Int × Option String)) ≠ some (1, 2, some "A:B") :=
  ⟨by decide, by decide⟩

/-- Claim C9 (amended): for every VID, PID and every nonempty serial string
containing no whitespace and no colon, parsing the resource string formatted
by `list_resources` yields back exactly `(vid, pid, serial)`; and the
resource string `"USB0::0x0957::0x17A4::MY50000001::INSTR"` parses to
VID=0x0957, PID=0x17A4, serial="MY50000001". -/
theorem c9_visa_roundtrip (vid pid : Nat) (serial : String)
    (hne : serial ≠ "")
    (hser : ∀ c ∈ serial.toList, notSpaceColon c = true) :
    instrument_resource_ids (list_resource_format vid pid serial)
        = some ((vid : Int), (pid : Int), some serial)
  ∧ instrument_resource_ids "USB0::0x0957::0x17A4::MY50000001::INSTR"
      = some (0x0957, 0x17A4, some "MY50000001") := by
  constructor
  · obtain ⟨sl⟩ := serial
    have hne' : sl ≠ [] := by
      intro h
      apply hne
      rw [h]
    have hser' : ∀ c ∈ sl, notSpaceColon c = true := hser
    unfold instrument_resource_ids
    rw [parse_format vid pid sl hser' hne']
    simp [pyIntArg_decDigits]
  · decide

/-- Claim C9 witness: VID 0x0957 (2391), PID 0x17A4 (6052) and serial
`"MY50000001"` round-trip through format-then-parse. -/
theorem c9_visa_roundtrip_witness :
    (("MY50000001" : String) ≠ ""
      ∧ ∀ c ∈ ("MY50000001" : String).toList, notSpaceColon c = true)
  ∧ instrument_resource_ids (list_resource_format 2391 6052 "MY50000001")
      = some (2391, 6052, some "MY50000001") :=
  ⟨⟨by decide, by decide⟩,
    (c9_visa_roundtrip 2391 6052 "MY50000001" (by decide) (by decide)).1⟩
